import Mathlib

/-!
Verification of the 19hz event-listing extractor and paginator.

Shallow embedding of `src/parser.py` (class `EventParser`) and
`src/models.py` (`Event`, `EventPage`).  HTML cells are modelled by the
data the extractors actually consume: the cell's rendered text and its
list of hyperlinks (visible text and href).  Python integers are `Int`,
Python list slicing is `pySlice`, Python floor division `//` is
`Int.fdiv` (made partial through `Option` where the divisor may be zero,
mirroring `ZeroDivisionError`).
-/

namespace NineteenHz

/-- A geographic region (`models.Region`): key, display name, filename. -/
structure Region where
  key : String
  name : String
  filename : String
deriving DecidableEq

/-- An extracted event (`models.Event`).  `additional_links` is a Python
dict in insertion order, modelled as an association list with unique keys. -/
structure Event where
  date : String
  time : String
  title : String
  venue : String
  location : String
  genres : List String
  price : Option String
  age_restriction : Option String
  organizers : List String
  url : Option String
  additional_links : List (String × String)
deriving DecidableEq

/-- A page of events (`models.EventPage`).  The integer fields are plain
Python ints, hence `Int`. -/
structure EventPage where
  events : List Event
  page : Int
  page_size : Int
  total_events : Int
  has_more : Bool
deriving DecidableEq

/-- Python list slicing `l[a:b]` (step 1): negative indices count from the
end, then both bounds are clamped into `[0, len]`; an empty slice results
when the adjusted upper bound does not exceed the lower. -/
def pySlice {α : Type} (l : List α) (a b : Int) : List α :=
  let n : Int := l.length
  let a' : Int := if a < 0 then max 0 (n + a) else min a n
  let b' : Int := if b < 0 then max 0 (n + b) else min b n
  (l.take b'.toNat).drop a'.toNat

/-- `EventParser._paginate_events`: clamp the page to at least 1, slice
`events[start:end]` with `start = (page-1)*page_size`,
`end = start+page_size`, and record the pre-slice total and a has-more
flag (`end < total`). -/
def paginateEvents (events : List Event) (page pageSize : Int) : EventPage :=
  let totalEvents : Int := events.length
  let page' : Int := max 1 page
  let startIdx : Int := (page' - 1) * pageSize
  let endIdx : Int := startIdx + pageSize
  { events := pySlice events startIdx endIdx
    page := page'
    page_size := pageSize
    total_events := totalEvents
    has_more := decide (endIdx < totalEvents) }

/-- `EventPage.total_pages`:
`max(1, (total_events + page_size - 1) // page_size)`.  Python `//` is
floor division and raises `ZeroDivisionError` when `page_size = 0`, so
the result is `none` exactly there. -/
def totalPages (ep : EventPage) : Option Int :=
  if ep.page_size = 0 then none
  else some (max 1 ((ep.total_events + ep.page_size - 1).fdiv ep.page_size))

/-- Formula of the specification, taken at its words:
`total_pages = max(1, ceil(total_events / page_size))`, with a true
rational ceiling. -/
def specTotalPages (totalEvents pageSize : Int) : Int :=
  max 1 ⌈(totalEvents : ℚ) / (pageSize : ℚ)⌉

/-! ## HTML cells and regex machinery

A table cell, as consumed by the extractors: its rendered text
(`cell.text(deep=True, strip=True)` in selectolax) and its hyperlinks
(`cell.css("a")`), each with stripped visible text and href attribute
(`attributes.get("href", "")`). -/

/-- One hyperlink inside a cell. -/
structure Link where
  text : String
  href : String
deriving DecidableEq

/-- One table cell. -/
structure Cell where
  text : String
  links : List Link
deriving DecidableEq

/-- Whitespace stripping on character lists: drop leading and trailing
whitespace. -/
def stripChars (l : List Char) : List Char :=
  ((l.dropWhile Char.isWhitespace).reverse.dropWhile Char.isWhitespace).reverse

/-- Python `str.strip()`. -/
def pyStrip (s : String) : String := (stripChars s.data).asString

/-- Python `str.split(sep)` for a one-character separator, on character
lists; an empty string yields `[[]]`, as in Python. -/
def splitOnChar (sep : Char) : List Char → List (List Char)
  | [] => [[]]
  | c :: t =>
    if c = sep then [] :: splitOnChar sep t
    else
      match splitOnChar sep t with
      | [] => [[c]]
      | h :: r => (c :: h) :: r

/-- Python substring test `needle in hay` on character lists. -/
def listContainsSub (n : List Char) : List Char → Bool
  | [] => n.isPrefixOf []
  | c :: t => n.isPrefixOf (c :: t) || listContainsSub n t

/-- Python `needle in hay` for strings. -/
def pyIn (needle hay : String) : Bool := listContainsSub needle.data hay.data

/-- `re.search` driver: try the position matcher `m` at every start
position from the left; `m` returns the matched text.  The first position
where `m` succeeds wins (leftmost match), as in Python `re`. -/
def searchFirst (m : List Char → Option (List Char)) : List Char → Option (List Char)
  | [] => m []
  | c :: t =>
    match m (c :: t) with
    | some r => some r
    | none => searchFirst m t

/-- `re.search` driver for patterns needing the previous character
(word-boundary `\b`): `prev` is the character just before the current
position, `none` at the start of the string. -/
def searchFirstPrev (m : Option Char → List Char → Option (List Char)) :
    Option Char → List Char → Option (List Char)
  | prev, [] => m prev []
  | prev, c :: t =>
    match m prev (c :: t) with
    | some r => some r
    | none => searchFirstPrev m (some c) t

/-- Case-sensitive literal alternative: matches `w` as a prefix, yielding
the matched (identical) text. -/
def matchLit (w : String) (cs : List Char) : Option (List Char) :=
  if w.data.isPrefixOf cs then some w.data else none

/-- Case-insensitive literal alternative (`re.IGNORECASE`): `w` is given
in lower case; the ORIGINAL slice of the subject is returned, as
`match.group(0)` does. -/
def matchCI (w : String) (cs : List Char) : Option (List Char) :=
  if (cs.take w.data.length).map Char.toLower = w.data then
    some (cs.take w.data.length)
  else none

/-- The seven weekday alternatives of `DATE_PATTERN`, in pattern order. -/
def weekdays : List String := ["Mon", "Tue", "Wed", "Thu", "Fri", "Sat", "Sun"]

/-- One alternative of `DATE_PATTERN = (Mon|Tue|Wed|Thu|Fri|Sat|Sun)[^\n]*`
at the current position: the weekday literal, then greedily to the end of
the line. -/
def matchWeekdayDate (w : String) (cs : List Char) : Option (List Char) :=
  if w.data.isPrefixOf cs then
    some (w.data ++ (cs.drop w.data.length).takeWhile (fun c => c ≠ '\n'))
  else none

/-- `DATE_PATTERN` at one position: the seven alternatives tried in
pattern order, the first success winning, as `re` alternation does. -/
def matchDateAt (cs : List Char) : Option (List Char) :=
  weekdays.findSome? (fun w => matchWeekdayDate w cs)

/-- `DATE_PATTERN.search`, returning `group(0)`. -/
def dateSearch (s : String) : Option String :=
  (searchFirst matchDateAt s.data).map List.asString

/-- `TIME_PATTERN = \(([^)]+)\)` at one position, returning `group(1)`:
an opening parenthesis, then one or more non-`)` characters (greedy),
then a closing parenthesis. -/
def matchTimeAt : List Char → Option (List Char)
  | '(' :: rest =>
    let body := rest.takeWhile (fun c => c ≠ ')')
    match rest.drop body.length with
    | ')' :: _ => if body = [] then none else some body
    | _ => none
  | _ => none

/-- `TIME_PATTERN.search(...)`, returning `group(1)`. -/
def timeSearch (s : String) : Option String :=
  (searchFirst matchTimeAt s.data).map List.asString

/-- First alternative of `PRICE_PATTERN = \$[\d\.]+|free|donation`:
a dollar sign followed by one or more (greedy) digits or dots. -/
def matchDollar : List Char → Option (List Char)
  | '$' :: rest =>
    if rest.takeWhile (fun c => c.isDigit || c = '.') = [] then none
    else some ('$' :: rest.takeWhile (fun c => c.isDigit || c = '.'))
  | _ => none

/-- `PRICE_PATTERN` (with `re.IGNORECASE`) at one position: the three
alternatives in pattern order. -/
def matchPriceAt (cs : List Char) : Option (List Char) :=
  matchDollar cs <|> matchCI "free" cs <|> matchCI "donation" cs

/-- `PRICE_PATTERN.search`, returning `group(0)`. -/
def priceSearch (s : String) : Option String :=
  (searchFirst matchPriceAt s.data).map List.asString

/-- A regex word character (`\w`), ASCII model: letter, digit or
underscore. -/
def isWordChar (c : Char) : Bool := c.isAlphanum || c = '_'

/-- `\b`: a word boundary between the previous character (`none` at the
string start) and the current position. -/
def wordBoundary (prev : Option Char) (cs : List Char) : Bool :=
  (match prev with | none => false | some c => isWordChar c) ≠
  (match cs.head? with | none => false | some c => isWordChar c)

/-- Last alternative of `AGE_PATTERN`: one or more (greedy) digits
immediately followed by a plus sign. -/
def matchDigitsPlus (cs : List Char) : Option (List Char) :=
  if cs.takeWhile Char.isDigit = [] then none
  else
    match cs.drop (cs.takeWhile Char.isDigit).length with
    | '+' :: _ => some (cs.takeWhile Char.isDigit ++ ['+'])
    | _ => none

/-- `AGE_PATTERN = \b(21\+|18\+|All ages|\d+\+)` (with `re.IGNORECASE`)
at one position: a word boundary, then the four alternatives in pattern
order. -/
def matchAgeAt (prev : Option Char) (cs : List Char) : Option (List Char) :=
  if wordBoundary prev cs then
    matchLit "21+" cs <|> matchLit "18+" cs <|> matchCI "all ages" cs <|>
    matchDigitsPlus cs
  else none

/-- `AGE_PATTERN.search`, returning `group(0)`. -/
def ageSearch (s : String) : Option String :=
  (searchFirstPrev matchAgeAt none s.data).map List.asString

/-- Modelled from the claim's words, for comparison: the age alternation
WITHOUT the word-boundary `\b` that the code's `AGE_PATTERN` carries. -/
def matchAgeAtNoBoundary (cs : List Char) : Option (List Char) :=
  matchLit "21+" cs <|> matchLit "18+" cs <|> matchCI "all ages" cs <|>
  matchDigitsPlus cs

/-- First match of the claim's age alternatives, ignoring word
boundaries. -/
def specAgeSearch (s : String) : Option String :=
  (searchFirst matchAgeAtNoBoundary s.data).map List.asString

/-- `VENUE_LOCATION_PATTERN = \([^)]+\)$` at one position, as a Boolean:
an opening parenthesis, one or more non-`)` characters, then a closing
parenthesis that ends the string. -/
def matchLocParenAtEnd : List Char → Bool
  | '(' :: rest =>
    let body := rest.takeWhile (fun c => c ≠ ')')
    decide (body ≠ []) && decide (rest.drop body.length = [')'])
  | _ => false

/-- `VENUE_LOCATION_PATTERN.sub("", s)` on character lists: drop the
leftmost (and, being end-anchored, only possible) trailing parenthesized
group. -/
def removeLocParen : List Char → List Char
  | [] => []
  | c :: t => if matchLocParenAtEnd (c :: t) then [] else c :: removeLocParen t

/-! ## Field extractors and the row parser (`parser.EventParser`) -/

/-- `EventParser.BASE_URL`. -/
def BASE_URL : String := "https://19hz.info"

/-- Python `url.startswith(w)`. -/
def pyStartsWith (u w : String) : Bool := w.data.isPrefixOf u.data

/-- Resolution of a non-empty href (the non-`None` branches of
`_make_absolute_url`). -/
def resolveUrl (url : String) : String :=
  if pyStartsWith url "http" then url
  else if pyStartsWith url "/" then BASE_URL ++ url
  else url

/-- `EventParser._make_absolute_url`: empty href gives `None`; an
`http...` href passes through; a root-relative href is prefixed with the
base origin; anything else passes through. -/
def makeAbsoluteUrl (url : String) : Option String :=
  if url = "" then none
  else if pyStartsWith url "http" then some url
  else if pyStartsWith url "/" then some (BASE_URL ++ url)
  else some url

/-- `EventParser._extract_datetime`: date is the first `DATE_PATTERN`
match (else `(None, "TBA")`), time the first parenthesized group (else
`"TBA"`). -/
def extractDatetime (cell : Cell) : Option String × String :=
  match dateSearch cell.text with
  | none => (none, "TBA")
  | some d =>
    (some d, match timeSearch cell.text with
             | some t => t
             | none => "TBA")

/-- `EventParser._extract_title_and_url`: if the cell has a hyperlink,
its visible text and resolved href; otherwise the trimmed text before
the first `"@"`, or the literal `"Event"` when the text has no `"@"`,
with no url. -/
def extractTitleAndUrl (cell : Cell) : String × Option String :=
  match cell.links with
  | link :: _ => (link.text, makeAbsoluteUrl link.href)
  | [] =>
    let t := cell.text
    if '@' ∈ t.data then
      (pyStrip (t.data.takeWhile (fun c => c ≠ '@')).asString, none)
    else ("Event", none)

/-- `EventParser._extract_venue`: `"TBA"` when the cell text has no
`"@"`; otherwise the trimmed text after the first `"@"`, with a trailing
parenthesized location removed and trimmed again. -/
def extractVenue (cell : Cell) : String :=
  let t := cell.text
  if '@' ∈ t.data then
    let afterAt := ((t.data.dropWhile (fun c => c ≠ '@')).tail).asString
    let venue := pyStrip afterAt
    pyStrip (removeLocParen venue.data).asString
  else "TBA"

/-- `EventParser._extract_genres`: split on commas, trim, drop empties. -/
def extractGenres (cell : Cell) : List String :=
  (((splitOnChar ',' cell.text.data).map List.asString).map pyStrip).filter
    (fun g => g ≠ "")

/-- `EventParser._extract_price_and_age`: first `PRICE_PATTERN` match and
first `AGE_PATTERN` match, each `none` when absent, evaluated
independently on the same cell text. -/
def extractPriceAndAge (cell : Cell) : Option String × Option String :=
  (priceSearch cell.text, ageSearch cell.text)

/-- `EventParser._extract_organizers`: same splitting rule as genres. -/
def extractOrganizers (cell : Cell) : List String :=
  (((splitOnChar ',' cell.text.data).map List.asString).map pyStrip).filter
    (fun o => o ≠ "")

/-- Insertion into a Python dict modelled as an association list: an
existing key keeps its position but takes the new value; a new key is
appended. -/
def dictInsert (d : List (String × String)) (k v : String) : List (String × String) :=
  match d with
  | [] => [(k, v)]
  | (a, b) :: rest => if a = k then (a, v) :: rest else (a, b) :: dictInsert rest k v

/-- Body of the loop of `_extract_additional_links`: a link is inserted
when its visible text is non-empty and its href resolves (Python
truthiness of `text` and `url`). -/
def addLinkStep (d : List (String × String)) (link : Link) : List (String × String) :=
  match makeAbsoluteUrl link.href with
  | none => d
  | some u => if link.text = "" then d else dictInsert d link.text u

/-- `EventParser._extract_additional_links`: an absent cell yields the
empty dict; otherwise every hyperlink with non-empty visible text and a
resolvable (non-empty) href is inserted as text ↦ absolute URL, later
links overwriting earlier ones with the same text. -/
def extractAdditionalLinks (cell : Option Cell) : List (String × String) :=
  match cell with
  | none => []
  | some c => c.links.foldl addLinkStep []

/-- The predicate of the additional-links characterization: the link is
keyed `t`, has non-empty text and a resolvable href. -/
def linkKeyed (t : String) (l : Link) : Bool :=
  l.text == t && !(l.text == "") && !(l.href == "")

/-- `EventParser._parse_event_row`: fewer than 6 cells gives no event;
a date must be found in cell 0 (and be non-empty, Python truthiness);
the remaining extractors fill the record; `location` is the region's
display name. -/
def parseEventRow (row : List Cell) (region : Region) : Option Event :=
  match row with
  | c0 :: c1 :: c2 :: c3 :: c4 :: c5 :: _ =>
    match extractDatetime c0 with
    | (none, _) => none
    | (some date, time) =>
      if date = "" then none
      else
        let tu := extractTitleAndUrl c1
        let pa := extractPriceAndAge c3
        some
          { date := date
            time := time
            title := tu.1
            venue := extractVenue c1
            location := region.name
            genres := extractGenres c2
            price := pa.1
            age_restriction := pa.2
            organizers := extractOrganizers c4
            url := tu.2
            additional_links := extractAdditionalLinks (some c5) }
  | _ => none

/-- `Event.matches_search`: case-insensitive substring match of the
search term against title, venue, any genre and any organizer. -/
def matchesSearch (e : Event) (searchTerm : String) : Bool :=
  let s := searchTerm.toLower
  pyIn s e.title.toLower || pyIn s e.venue.toLower ||
  e.genres.any (fun g => pyIn s g.toLower) ||
  e.organizers.any (fun o => pyIn s o.toLower)

/-! ## Sample data used in concrete instances -/

/-- A sample region. -/
def sampleRegion : Region :=
  { key := "bayarea", name := "San Francisco Bay Area",
    filename := "eventlisting_BayArea.php" }

/-- A sample event used to build concrete paginator inputs. -/
def sampleEvent : Event :=
  { date := "Sat: Jan 4", time := "10pm", title := "Show", venue := "Club",
    location := "San Francisco Bay Area", genres := [], price := none,
    age_restriction := none, organizers := [], url := none,
    additional_links := [] }

/-- 120 identical events, the concrete paginator input of the spec. -/
def sampleEvents : List Event := List.replicate 120 sampleEvent

/-- A cell with empty text and no links. -/
def blankCell : Cell := { text := "", links := [] }

/-! ## Helper lemmas -/

theorem listContainsSub_iff (n h : List Char) :
    listContainsSub n h = true ↔ n <:+: h := by
  induction h with
  | nil => simp [listContainsSub, List.isPrefixOf_iff_prefix]
  | cons c t ih =>
    simp [listContainsSub, List.isPrefixOf_iff_prefix, ih, List.infix_cons_iff]

theorem searchFirst_isSome_iff (m : List Char → Option (List Char)) (cs : List Char) :
    (searchFirst m cs).isSome = true ↔ ∃ s, s <:+ cs ∧ (m s).isSome = true := by
  induction cs with
  | nil => simp [searchFirst]
  | cons c t ih =>
    rw [searchFirst]
    cases hm : m (c :: t) with
    | some r =>
      simp only [Option.isSome_some, true_iff]
      exact ⟨c :: t, List.suffix_refl _, by simp [hm]⟩
    | none =>
      simp only [ih, List.suffix_cons_iff]
      constructor
      · rintro ⟨s, hs, hsome⟩
        exact ⟨s, Or.inr hs, hsome⟩
      · rintro ⟨s, hs | hs, hsome⟩
        · subst hs; simp [hm] at hsome
        · exact ⟨s, hs, hsome⟩

theorem searchFirst_eq_some_exists {m : List Char → Option (List Char)}
    {cs r : List Char} (h : searchFirst m cs = some r) :
    ∃ s, s <:+ cs ∧ m s = some r := by
  induction cs with
  | nil => exact ⟨[], List.suffix_refl _, h⟩
  | cons c t ih =>
    rw [searchFirst] at h
    cases hm : m (c :: t) with
    | some r' =>
      rw [hm] at h
      exact ⟨c :: t, List.suffix_refl _, by simp [hm, ← h]⟩
    | none =>
      rw [hm] at h
      obtain ⟨s, hs, hsome⟩ := ih h
      exact ⟨s, hs.trans (List.suffix_cons c t), hsome⟩

theorem searchFirstPrev_eq_some_exists
    {m : Option Char → List Char → Option (List Char)} :
    ∀ {prev : Option Char} {cs r : List Char},
      searchFirstPrev m prev cs = some r → ∃ p s, m p s = some r := by
  intro prev cs
  induction cs generalizing prev with
  | nil => exact fun h => ⟨prev, [], h⟩
  | cons c t ih =>
    intro r h
    rw [searchFirstPrev] at h
    cases hm : m prev (c :: t) with
    | some r' =>
      rw [hm] at h
      simp only [Option.some.injEq] at h
      exact ⟨prev, c :: t, by rw [hm, h]⟩
    | none => rw [hm] at h; exact ih h

theorem findSome?_isSome_iff {α β : Type} (l : List α) (f : α → Option β) :
    (l.findSome? f).isSome = true ↔ ∃ a ∈ l, (f a).isSome = true := by
  induction l with
  | nil => simp
  | cons a t ih =>
    rw [List.findSome?_cons]
    cases h : f a <;> simp [h, ih]

theorem matchWeekdayDate_isSome_iff (w : String) (cs : List Char) :
    (matchWeekdayDate w cs).isSome = true ↔ w.data <+: cs := by
  unfold matchWeekdayDate
  split <;> simp_all [List.isPrefixOf_iff_prefix]

theorem matchWeekdayDate_eq_some {w : String} {cs r : List Char}
    (h : matchWeekdayDate w cs = some r) :
    r = w.data ++ (cs.drop w.data.length).takeWhile (fun c => c ≠ '\n') := by
  unfold matchWeekdayDate at h
  split at h
  · exact (Option.some.injEq _ _ ▸ h).symm
  · exact absurd h (by simp)

theorem matchDateAt_isSome_iff (cs : List Char) :
    (matchDateAt cs).isSome = true ↔ ∃ w ∈ weekdays, w.data <+: cs := by
  simp [matchDateAt, findSome?_isSome_iff, matchWeekdayDate_isSome_iff]

theorem matchDateAt_ne_nil {cs r : List Char} (h : matchDateAt cs = some r) :
    r ≠ [] := by
  obtain ⟨w, hw, hsome⟩ := List.exists_of_findSome?_eq_some h
  have hr := matchWeekdayDate_eq_some hsome
  subst hr
  fin_cases hw <;> simp

theorem dateSearch_isSome_iff (s : String) :
    (dateSearch s).isSome = true ↔ ∃ w ∈ weekdays, w.data <:+: s.data := by
  rw [dateSearch, Option.isSome_map']
  rw [searchFirst_isSome_iff]
  constructor
  · rintro ⟨suf, hsuf, hsome⟩
    obtain ⟨w, hw, hpre⟩ := (matchDateAt_isSome_iff suf).mp hsome
    exact ⟨w, hw, List.infix_iff_prefix_suffix.mpr ⟨suf, hpre, hsuf⟩⟩
  · rintro ⟨w, hw, hinf⟩
    obtain ⟨suf, hpre, hsuf⟩ := List.infix_iff_prefix_suffix.mp hinf
    exact ⟨suf, hsuf, (matchDateAt_isSome_iff suf).mpr ⟨w, hw, hpre⟩⟩

theorem asString_ne_empty {l : List Char} (h : l ≠ []) : l.asString ≠ "" := by
  intro he
  exact h (congrArg String.data he)

theorem dateSearch_ne_empty {s : String} {d : String} (h : dateSearch s = some d) :
    d ≠ "" := by
  rw [dateSearch] at h
  obtain ⟨r, hr, hmap⟩ := Option.map_eq_some'.mp h
  obtain ⟨suf, _, hm⟩ := searchFirst_eq_some_exists hr
  exact hmap ▸ asString_ne_empty (matchDateAt_ne_nil hm)

theorem matchCI_eq_some {w : String} {cs r : List Char} (h : matchCI w cs = some r) :
    r.map Char.toLower = w.data := by
  unfold matchCI at h
  split at h
  · cases h; assumption
  · exact absurd h (by simp)

theorem matchLit_eq_some {w : String} {cs r : List Char} (h : matchLit w cs = some r) :
    r = w.data := by
  unfold matchLit at h
  split at h
  · cases h; rfl
  · exact absurd h (by simp)

theorem matchDollar_ne_nil {cs r : List Char} (h : matchDollar cs = some r) :
    r ≠ [] := by
  unfold matchDollar at h
  split at h
  · split at h
    · exact absurd h (by simp)
    · cases h; simp
  · exact absurd h (by simp)

theorem matchCI_ne_nil {w : String} {cs r : List Char} (hw : w.data ≠ [])
    (h : matchCI w cs = some r) : r ≠ [] := by
  intro hr
  apply hw
  have := matchCI_eq_some h
  rw [hr] at this
  simpa using this.symm

theorem matchPriceAt_ne_nil {cs r : List Char} (h : matchPriceAt cs = some r) :
    r ≠ [] := by
  rw [matchPriceAt] at h
  rcases (Option.orElse_eq_some _ _ _).mp h with h1 | ⟨-, h2⟩
  · exact matchDollar_ne_nil h1
  · rcases (Option.orElse_eq_some _ _ _).mp h2 with h3 | ⟨-, h4⟩
    · exact matchCI_ne_nil (by decide) h3
    · exact matchCI_ne_nil (by decide) h4

theorem matchDigitsPlus_ne_nil {cs r : List Char} (h : matchDigitsPlus cs = some r) :
    r ≠ [] := by
  unfold matchDigitsPlus at h
  split at h
  · exact absurd h (by simp)
  · split at h
    · cases h; simp
    · exact absurd h (by simp)

theorem matchAgeAt_ne_nil {prev : Option Char} {cs r : List Char}
    (h : matchAgeAt prev cs = some r) : r ≠ [] := by
  rw [matchAgeAt] at h
  split at h
  · rcases (Option.orElse_eq_some _ _ _).mp h with h1 | ⟨-, h2⟩
    · rw [matchLit_eq_some h1]; simp
    · rcases (Option.orElse_eq_some _ _ _).mp h2 with h3 | ⟨-, h4⟩
      · rw [matchLit_eq_some h3]; simp
      · rcases (Option.orElse_eq_some _ _ _).mp h4 with h5 | ⟨-, h6⟩
        · exact matchCI_ne_nil (by decide) h5
        · exact matchDigitsPlus_ne_nil h6
  · exact absurd h (by simp)

theorem priceSearch_ne_empty {s r : String} (h : priceSearch s = some r) :
    r ≠ "" := by
  rw [priceSearch] at h
  obtain ⟨r0, hr0, hmap⟩ := Option.map_eq_some'.mp h
  obtain ⟨suf, -, hm⟩ := searchFirst_eq_some_exists hr0
  exact hmap ▸ asString_ne_empty (matchPriceAt_ne_nil hm)

theorem ageSearch_ne_empty {s r : String} (h : ageSearch s = some r) :
    r ≠ "" := by
  rw [ageSearch] at h
  obtain ⟨r0, hr0, hmap⟩ := Option.map_eq_some'.mp h
  obtain ⟨p, suf, hm⟩ := searchFirstPrev_eq_some_exists hr0
  exact hmap ▸ asString_ne_empty (matchAgeAt_ne_nil hm)

theorem lookup_dictInsert (d : List (String × String)) (k v t : String) :
    List.lookup t (dictInsert d k v) = if t = k then some v else List.lookup t d := by
  induction d with
  | nil =>
    by_cases h : t = k
    · subst h; simp [dictInsert, List.lookup]
    · have hb : (t == k) = false := beq_eq_false_iff_ne.mpr h
      simp [dictInsert, List.lookup, hb, h]
  | cons hd tl ih =>
    obtain ⟨a, b⟩ := hd
    by_cases hak : a = k
    · subst hak
      rw [show dictInsert ((a, b) :: tl) a v = (a, v) :: tl by
        simp [dictInsert]]
      by_cases hta : t = a
      · subst hta; simp [List.lookup]
      · have hb : (t == a) = false := beq_eq_false_iff_ne.mpr hta
        simp [List.lookup, hb, hta]
    · rw [show dictInsert ((a, b) :: tl) k v = (a, b) :: dictInsert tl k v by
        simp [dictInsert, hak]]
      by_cases hta : t = a
      · subst hta
        simp [List.lookup, hak]
      · have hb : (t == a) = false := beq_eq_false_iff_ne.mpr hta
        simp [List.lookup, hb, hta, ih]

theorem makeAbsoluteUrl_eq_none_iff (url : String) :
    makeAbsoluteUrl url = none ↔ url = "" := by
  unfold makeAbsoluteUrl
  split_ifs <;> simp_all

theorem makeAbsoluteUrl_eq_resolve {url : String} (h : url ≠ "") :
    makeAbsoluteUrl url = some (resolveUrl url) := by
  unfold makeAbsoluteUrl resolveUrl
  split_ifs <;> simp_all

theorem lookup_addLinkStep (d : List (String × String)) (l : Link) (t : String) :
    List.lookup t (addLinkStep d l) =
      Option.or (([l].find? (linkKeyed t)).map (fun l => resolveUrl l.href))
        (List.lookup t d) := by
  unfold addLinkStep
  by_cases hhref : l.href = ""
  · rw [(makeAbsoluteUrl_eq_none_iff l.href).mpr hhref]
    have h2 : (l.href == "") = true := beq_iff_eq.mpr hhref
    simp [List.find?, linkKeyed, h2]
  · have h2 : (l.href == "") = false := beq_eq_false_iff_ne.mpr hhref
    rw [makeAbsoluteUrl_eq_resolve hhref]
    by_cases htext : l.text = ""
    · have h1 : (l.text == "") = true := beq_iff_eq.mpr htext
      simp [htext, List.find?, linkKeyed, h1]
    · have h1 : (l.text == "") = false := beq_eq_false_iff_ne.mpr htext
      simp only [htext, if_false]
      rw [lookup_dictInsert]
      by_cases hkt : t = l.text
      · subst hkt
        simp [List.find?, linkKeyed, h1, h2]
      · have hb : (l.text == t) = false :=
          beq_eq_false_iff_ne.mpr (fun he => hkt he.symm)
        simp [List.find?, linkKeyed, hb, hkt]

theorem lookup_foldl_addLinkStep (links : List Link) (d : List (String × String))
    (t : String) :
    List.lookup t (links.foldl addLinkStep d) =
      Option.or ((links.reverse.find? (linkKeyed t)).map (fun l => resolveUrl l.href))
        (List.lookup t d) := by
  induction links generalizing d with
  | nil => simp
  | cons l ls ih =>
    rw [List.foldl_cons, ih, List.reverse_cons, List.find?_append, Option.map_or',
      Option.or_assoc, lookup_addLinkStep]

theorem fdiv_eq_rat_ceil {t ps : Int} (h : 0 < ps) :
    (t + ps - 1).fdiv ps = ⌈(t : ℚ) / (ps : ℚ)⌉ := by
  have hq := Int.fdiv_add_fmod (t + ps - 1) ps
  have h0 : 0 ≤ (t + ps - 1).fmod ps := Int.fmod_nonneg' _ h
  have h1 : (t + ps - 1).fmod ps < ps := Int.fmod_lt_of_pos _ h
  set q := (t + ps - 1).fdiv ps with hqdef
  set m := (t + ps - 1).fmod ps with hmdef
  have hps : (0 : ℚ) < (ps : ℚ) := by exact_mod_cast h
  symm
  rw [Int.ceil_eq_iff]
  constructor
  · rw [show ((q : ℚ) - 1) = ((q - 1 : Int) : ℚ) by push_cast; ring]
    rw [lt_div_iff₀ hps]
    have hlt : (q - 1) * ps < t := by
      have hexp : (q - 1) * ps = ps * q - ps := by ring
      omega
    exact_mod_cast hlt
  · rw [div_le_iff₀ hps]
    have hle : t ≤ q * ps := by
      have hexp : q * ps = ps * q := by ring
      omega
    exact_mod_cast hle

theorem pySlice_length {α : Type} (l : List α) (a b : Int) (ha : 0 ≤ a)
    (hb : 0 ≤ b) :
    (pySlice l a b).length = min b.toNat l.length - a.toNat := by
  simp only [pySlice]
  rw [if_neg (by omega), if_neg (by omega)]
  simp only [List.length_drop, List.length_take]
  omega

theorem parseEventRow_eq (c0 c1 c2 c3 c4 c5 : Cell) (rest : List Cell)
    (region : Region) :
    parseEventRow (c0 :: c1 :: c2 :: c3 :: c4 :: c5 :: rest) region =
      match dateSearch c0.text with
      | none => none
      | some d =>
        if d = "" then none
        else
          some { date := d
                 time := match timeSearch c0.text with
                         | some t => t
                         | none => "TBA"
                 title := (extractTitleAndUrl c1).1
                 venue := extractVenue c1
                 location := region.name
                 genres := extractGenres c2
                 price := (extractPriceAndAge c3).1
                 age_restriction := (extractPriceAndAge c3).2
                 organizers := extractOrganizers c4
                 url := (extractTitleAndUrl c1).2
                 additional_links := extractAdditionalLinks (some c5) } := by
  cases h : dateSearch c0.text <;> simp [parseEventRow, extractDatetime, h]

/-! ## Claim theorems -/

set_option maxRecDepth 40000 in
/-- C2: the paginator clamps the page to a minimum of 1, returns the
slice `events[(page-1)*page_size : (page-1)*page_size + page_size]`
(with the clamped page), sets `total_events` to the length of the full
input list, and sets `has_more` iff `page*page_size < total_events`;
concretely, with 120 events and page size 50, page 1 has 50 items with
`has_more`, page 3 has 20 items without, page 0 behaves as page 1, and
page 10 is the empty slice with `has_more = false` and `total_events`
still 120.  The function is total, so no error is raised for any page. -/
theorem claim_C2 :
    (∀ (events : List Event) (page pageSize : Int),
      (paginateEvents events page pageSize).page = max 1 page ∧
      (paginateEvents events page pageSize).events =
        pySlice events ((max 1 page - 1) * pageSize)
          ((max 1 page - 1) * pageSize + pageSize) ∧
      (paginateEvents events page pageSize).total_events = (events.length : Int) ∧
      ((paginateEvents events page pageSize).has_more = true ↔
        max 1 page * pageSize < (events.length : Int))) ∧
    ((paginateEvents sampleEvents 1 50).events.length = 50 ∧
      (paginateEvents sampleEvents 1 50).has_more = true) ∧
    ((paginateEvents sampleEvents 3 50).events.length = 20 ∧
      (paginateEvents sampleEvents 3 50).has_more = false) ∧
    paginateEvents sampleEvents 0 50 = paginateEvents sampleEvents 1 50 ∧
    ((paginateEvents sampleEvents 10 50).events = [] ∧
      (paginateEvents sampleEvents 10 50).has_more = false ∧
      (paginateEvents sampleEvents 10 50).total_events = 120) := by
  refine ⟨?_, ⟨by decide, by decide⟩, ⟨by decide, by decide⟩, by decide,
    by decide, by decide, by decide⟩
  intro events page pageSize
  refine ⟨rfl, rfl, rfl, ?_⟩
  have hrw : (max 1 page - 1) * pageSize + pageSize = max 1 page * pageSize := by
    ring
  simp only [paginateEvents, decide_eq_true_eq, hrw]

/-- C5 fails as stated: `total_pages` is quantified over every
`EventPage`, but on `page_size = 0` the code raises `ZeroDivisionError`
(modelled `none`), and on `page_size = -1`, `total_events = 0` the code
returns 2 while `max(1, ceil(0 / -1)) = 1`. -/
theorem claim_C5_counterexample :
    totalPages { events := [], page := 1, page_size := 0, total_events := 0,
                 has_more := false } = none ∧
    totalPages { events := [], page := 1, page_size := -1, total_events := 0,
                 has_more := false } = some 2 ∧
    specTotalPages 0 (-1) = 1 ∧ specTotalPages 0 0 = 1 := by
  refine ⟨rfl, by decide, ?_, ?_⟩ <;> simp [specTotalPages]

/-- C5 (amended): for every `EventPage` with positive `page_size`,
`total_pages = max(1, ceil(total_events / page_size))`, and in
particular `total_events = 0` gives `total_pages = 1`, never 0. -/
theorem claim_C5 : ∀ ep : EventPage, 0 < ep.page_size →
    totalPages ep = some (specTotalPages ep.total_events ep.page_size) ∧
    (ep.total_events = 0 → totalPages ep = some 1) := by
  intro ep hps
  have h1 : totalPages ep =
      some (max 1 ((ep.total_events + ep.page_size - 1).fdiv ep.page_size)) := by
    rw [totalPages, if_neg (by omega)]
  constructor
  · rw [h1, specTotalPages, fdiv_eq_rat_ceil hps]
  · intro h0
    rw [h1, h0]
    have hz : ((0 : Int) + ep.page_size - 1).fdiv ep.page_size = 0 := by
      rw [Int.fdiv_eq_ediv _ (le_of_lt hps)]
      apply Int.ediv_eq_zero_of_lt <;> omega
    rw [hz]
    norm_num

/-- Witness for C5 at `total_events = 120`, `page_size = 50`. -/
theorem claim_C5_witness :
    totalPages { events := [], page := 1, page_size := 50, total_events := 120,
                 has_more := false } = some (specTotalPages 120 50) :=
  (claim_C5 { events := [], page := 1, page_size := 50, total_events := 120,
              has_more := false } (by decide)).1

/-- C10: `total_pages` divides by the caller-supplied `page_size` with no
guard, so it is undefined (raises) exactly when `page_size = 0`, and the
paginator happily constructs such a page: nothing validates `page_size`. -/
theorem claim_C10 :
    (∀ ep : EventPage, ep.page_size = 0 → totalPages ep = none) ∧
    (∀ (events : List Event) (page : Int),
      (paginateEvents events page 0).page_size = 0 ∧
      totalPages (paginateEvents events page 0) = none) := by
  constructor
  · intro ep h
    rw [totalPages, if_pos h]
  · intro events page
    exact ⟨rfl, by simp [totalPages, paginateEvents]⟩

/-- Witness for C10 at a concrete zero-`page_size` page. -/
theorem claim_C10_witness :
    totalPages { events := [], page := 1, page_size := 0, total_events := 7,
                 has_more := true } = none :=
  claim_C10.1 { events := [], page := 1, page_size := 0, total_events := 7,
                has_more := true } rfl

/-- C4 fails as stated: with an empty event list, page 1 and page size
50, the slice is empty although the clamped page 1 is not beyond
`total_pages = 1`, so "empty iff beyond total_pages" does not hold. -/
theorem claim_C4_counterexample :
    (paginateEvents [] 1 50).events = [] ∧
    (paginateEvents [] 1 50).page = 1 ∧
    totalPages (paginateEvents [] 1 50) = some 1 := by
  refine ⟨rfl, rfl, by decide⟩

/-- C4 (amended): for a positive page size the slice never exceeds
`page_size` items, and it is empty iff the clamped page is beyond
`total_pages` or the input list itself is empty. -/
theorem claim_C4 : ∀ (events : List Event) (page pageSize : Int),
    0 < pageSize →
    (paginateEvents events page pageSize).events.length ≤ pageSize.toNat ∧
    ((paginateEvents events page pageSize).events = [] ↔
      ((∃ tp, totalPages (paginateEvents events page pageSize) = some tp ∧
          tp < (paginateEvents events page pageSize).page) ∨ events = [])) := by
  intro events page pageSize hps
  have hp1 : (1 : Int) ≤ max 1 page := le_max_left _ _
  have hstart : 0 ≤ (max 1 page - 1) * pageSize :=
    mul_nonneg (by omega) (by omega)
  have hev : (paginateEvents events page pageSize).events =
      pySlice events ((max 1 page - 1) * pageSize)
        ((max 1 page - 1) * pageSize + pageSize) := rfl
  have hlen := pySlice_length events ((max 1 page - 1) * pageSize)
    ((max 1 page - 1) * pageSize + pageSize) hstart (by omega)
  have htp : totalPages (paginateEvents events page pageSize) =
      some (max 1 (((events.length : Int) + pageSize - 1).fdiv pageSize)) := by
    simp only [totalPages, paginateEvents]
    rw [if_neg (by omega : ¬ (pageSize = 0))]
  have hpage : (paginateEvents events page pageSize).page = max 1 page := rfl
  have hqm := Int.fdiv_add_fmod ((events.length : Int) + pageSize - 1) pageSize
  have h0 : 0 ≤ ((events.length : Int) + pageSize - 1).fmod pageSize :=
    Int.fmod_nonneg' _ hps
  have h1 : ((events.length : Int) + pageSize - 1).fmod pageSize < pageSize :=
    Int.fmod_lt_of_pos _ hps
  have hb1 : pageSize * (((events.length : Int) + pageSize - 1).fdiv pageSize) ≤
        pageSize * (max 1 page - 1) ↔
      (((events.length : Int) + pageSize - 1).fdiv pageSize) ≤ max 1 page - 1 :=
    ⟨fun h => le_of_mul_le_mul_left h hps,
     fun h => mul_le_mul_of_nonneg_left h (le_of_lt hps)⟩
  have hb2 : pageSize * (((events.length : Int) + pageSize - 1).fdiv pageSize) <
        pageSize * max 1 page ↔
      (((events.length : Int) + pageSize - 1).fdiv pageSize) < max 1 page :=
    ⟨fun h => lt_of_mul_lt_mul_left h (le_of_lt hps),
     fun h => mul_lt_mul_of_pos_left h hps⟩
  have hc1 : (max 1 page - 1) * pageSize = pageSize * (max 1 page - 1) := by
    ring
  have hc2 : pageSize * max 1 page = (max 1 page - 1) * pageSize + pageSize := by
    ring
  have hBp1 : max 1 page = 1 → (max 1 page - 1) * pageSize = 0 := by
    intro h
    rw [h]
    ring
  constructor
  · rw [hev, hlen]
    omega
  · rw [hev, ← List.length_eq_zero, hlen, htp, hpage,
      ← List.length_eq_zero (l := events)]
    simp only [Option.some.injEq, exists_eq_left']
    omega

/-- Witness for C4 at 3 events, page 2, page size 2. -/
theorem claim_C4_witness :
    (paginateEvents [sampleEvent, sampleEvent, sampleEvent] 2 2).events.length ≤
      (2 : Int).toNat ∧
    ((paginateEvents [sampleEvent, sampleEvent, sampleEvent] 2 2).events = [] ↔
      ((∃ tp, totalPages (paginateEvents [sampleEvent, sampleEvent, sampleEvent] 2 2) =
          some tp ∧
          tp < (paginateEvents [sampleEvent, sampleEvent, sampleEvent] 2 2).page) ∨
        ([sampleEvent, sampleEvent, sampleEvent] : List Event) = [])) :=
  claim_C4 [sampleEvent, sampleEvent, sampleEvent] 2 2 (by decide)

/-- C1: the row parser yields no event for a row with fewer than 6
cells, and for a row with at least 6 cells it yields an event exactly
when the first cell's text contains one of the case-sensitive weekday
tokens Mon/Tue/Wed/Thu/Fri/Sat/Sun; being a total function, it never
raises. -/
theorem claim_C1 : ∀ (row : List Cell) (region : Region),
    (row.length < 6 → parseEventRow row region = none) ∧
    (∀ c0 c1 c2 c3 c4 c5 rest,
      row = c0 :: c1 :: c2 :: c3 :: c4 :: c5 :: rest →
      ((∀ w ∈ weekdays, ¬ w.data <:+: c0.text.data) →
        parseEventRow row region = none) ∧
      ((∃ w ∈ weekdays, w.data <:+: c0.text.data) →
        (parseEventRow row region).isSome = true)) := by
  intro row region
  constructor
  · intro hlen
    rcases row with _ | ⟨c0, _ | ⟨c1, _ | ⟨c2, _ | ⟨c3, _ | ⟨c4, _ | ⟨c5, rest⟩⟩⟩⟩⟩⟩
    · rfl
    · rfl
    · rfl
    · rfl
    · rfl
    · rfl
    · exfalso
      simp [List.length_cons] at hlen
      omega
  · intro c0 c1 c2 c3 c4 c5 rest hrow
    subst hrow
    constructor
    · intro hno
      have hnone : dateSearch c0.text = none := by
        rw [← Option.not_isSome_iff_eq_none, Bool.not_eq_true,
          ← Bool.not_eq_true, dateSearch_isSome_iff]
        push_neg
        exact hno
      rw [parseEventRow_eq, hnone]
    · intro hyes
      obtain ⟨d, hd⟩ :=
        Option.isSome_iff_exists.mp ((dateSearch_isSome_iff c0.text).mpr hyes)
      have hne : d ≠ "" := dateSearch_ne_empty hd
      rw [parseEventRow_eq, hd]
      simp [hne]

/-- Witness for C1: a short row, a 6-cell row with no weekday, and a
6-cell row whose first cell contains "Sat". -/
theorem claim_C1_witness :
    parseEventRow [blankCell] sampleRegion = none ∧
    parseEventRow [{ text := "Date", links := [] }, blankCell, blankCell,
      blankCell, blankCell, blankCell] sampleRegion = none ∧
    (parseEventRow [{ text := "Sat: Jan 4", links := [] }, blankCell, blankCell,
      blankCell, blankCell, blankCell] sampleRegion).isSome = true :=
  ⟨(claim_C1 [blankCell] sampleRegion).1 (by decide),
   ((claim_C1 [{ text := "Date", links := [] }, blankCell, blankCell, blankCell,
      blankCell, blankCell] sampleRegion).2 _ _ _ _ _ _ [] rfl).1 (by decide),
   ((claim_C1 [{ text := "Sat: Jan 4", links := [] }, blankCell, blankCell,
      blankCell, blankCell, blankCell] sampleRegion).2 _ _ _ _ _ _ [] rfl).2
     (by decide)⟩

/-- C3 fails as stated: a row whose title cell has no hyperlink and
whose text starts with "@" is accepted but gets the EMPTY title (the
text before the first "@" is empty after trimming), so "title is a
non-empty string" does not hold for every accepted row. -/
theorem claim_C3_counterexample :
    (parseEventRow [{ text := "Sat: Jan 4", links := [] },
        { text := "@Club X", links := [] }, blankCell, blankCell, blankCell,
        blankCell] sampleRegion).map Event.title = some "" := by
  decide

/-- C3 (amended): for every accepted row whose title cell has no
hyperlink and no "@" in its text, the title is the literal "Event" and
the url is null; titles are NOT non-empty in general (the title cell may
start with "@", or carry a link with empty visible text). -/
theorem claim_C3 : ∀ (c0 c1 c2 c3 c4 c5 : Cell) (rest : List Cell)
    (region : Region) (e : Event),
    parseEventRow (c0 :: c1 :: c2 :: c3 :: c4 :: c5 :: rest) region = some e →
    c1.links = [] → ¬ '@' ∈ c1.text.data →
    e.title = "Event" ∧ e.url = none := by
  intro c0 c1 c2 c3 c4 c5 rest region e h hlinks hat
  rw [parseEventRow_eq] at h
  cases hds : dateSearch c0.text with
  | none => rw [hds] at h; exact absurd h (by simp)
  | some d =>
    simp only [hds] at h
    by_cases hd : d = ""
    · rw [if_pos hd] at h
      exact absurd h (by simp)
    · rw [if_neg hd, Option.some.injEq] at h
      subst h
      have htu : extractTitleAndUrl c1 = ("Event", none) := by
        rw [extractTitleAndUrl, hlinks]
        simp [hat]
      simp [htu]

/-- Witness for C3 at a concrete link-free, "@"-free title cell. -/
theorem claim_C3_witness :
    ({ date := "Sat: Jan 4", time := "TBA", title := "Event", venue := "TBA",
       location := "San Francisco Bay Area", genres := [], price := none,
       age_restriction := none, organizers := [], url := none,
       additional_links := [] } : Event).title = "Event" ∧
    ({ date := "Sat: Jan 4", time := "TBA", title := "Event", venue := "TBA",
       location := "San Francisco Bay Area", genres := [], price := none,
       age_restriction := none, organizers := [], url := none,
       additional_links := [] } : Event).url = none :=
  claim_C3 { text := "Sat: Jan 4", links := [] }
    { text := "Solo Show", links := [] } blankCell blankCell blankCell
    blankCell [] sampleRegion _ (by decide) rfl (by decide)

/-- C6 fails as stated on the age side: the claim enumerates the age
alternatives ("21+", "18+", "All ages", digits followed by "+") without
the word boundary `\b` that the code's `AGE_PATTERN` requires, so on
"a18+" the claimed first-match rule produces "18+" while the code
extracts no age at all. -/
theorem claim_C6_counterexample :
    specAgeSearch "a18+" = some "18+" ∧ ageSearch "a18+" = none := by
  refine ⟨by decide, by decide⟩

/-- C6 (amended): price is the first `PRICE_PATTERN` match and age the
first `AGE_PATTERN` match — the age alternatives counting only at a
regex word boundary — evaluated independently on the same cell text;
"$10-15" gives price "$10", "FREE" matches case-insensitively,
"21+ / $15" gives age "21+", "All Ages" matches case-insensitively,
"a18+" gives no age (no word boundary), a matchless text gives null
(never the empty string), and either, both or neither may match. -/
theorem claim_C6 :
    priceSearch "$10-15" = some "$10" ∧
    priceSearch "FREE" = some "FREE" ∧
    priceSearch "tickets at the door" = none ∧
    ageSearch "21+ / $15" = some "21+" ∧
    ageSearch "All Ages" = some "All Ages" ∧
    ageSearch "a18+" = none ∧
    (∀ s r, priceSearch s = some r → r ≠ "") ∧
    (∀ s r, ageSearch s = some r → r ≠ "") ∧
    (∀ cell : Cell,
      extractPriceAndAge cell = (priceSearch cell.text, ageSearch cell.text)) ∧
    extractPriceAndAge { text := "$10", links := [] } = (some "$10", none) ∧
    extractPriceAndAge { text := "21+ / $15", links := [] } =
      (some "$15", some "21+") ∧
    extractPriceAndAge { text := "dancing all night", links := [] } =
      (none, none) := by
  refine ⟨by decide, by decide, by decide, by decide, by decide, by decide,
    fun s r h => priceSearch_ne_empty h, fun s r h => ageSearch_ne_empty h,
    fun cell => rfl, by decide, by decide, by decide⟩

/-- Witness for C6: the never-empty conclusions at concrete matches. -/
theorem claim_C6_witness : ("$10" : String) ≠ "" ∧ ("21+" : String) ≠ "" :=
  ⟨claim_C6.2.2.2.2.2.2.1 "$10-15" "$10" (by decide),
   claim_C6.2.2.2.2.2.2.2.1 "21+ / $15" "21+" (by decide)⟩

/-- C7: the search filter accepts exactly when the lower-cased term is a
substring of the lower-cased title, venue, some genre or some organizer,
and its verdict is unchanged under arbitrary changes to the date, time,
location, price, age, url and additional-links fields. -/
theorem claim_C7 : ∀ (e : Event) (term : String),
    (matchesSearch e term = true ↔
      (term.toLower.data <:+: e.title.toLower.data ∨
       term.toLower.data <:+: e.venue.toLower.data ∨
       (∃ g ∈ e.genres, term.toLower.data <:+: g.toLower.data) ∨
       (∃ o ∈ e.organizers, term.toLower.data <:+: o.toLower.data))) ∧
    (∀ d tm loc pr ag u al,
      matchesSearch
        { e with
          date := d
          time := tm
          location := loc
          price := pr
          age_restriction := ag
          url := u
          additional_links := al } term = matchesSearch e term) := by
  intro e term
  constructor
  · simp only [matchesSearch, pyIn, listContainsSub_iff, List.any_eq_true,
      Bool.or_eq_true]
    rw [or_assoc, or_assoc]
  · intro d tm loc pr ag u al
    rfl

/-- C8: venue extraction is "TBA" when the title/venue cell text has no
"@"; otherwise it is the trimmed text after the first "@" with a
trailing parenthesized suffix removed (and re-trimmed); concretely
"Title @ Club X (San Francisco)" yields "Club X". -/
theorem claim_C8 :
    (∀ cell : Cell, ¬ '@' ∈ cell.text.data → extractVenue cell = "TBA") ∧
    (∀ (cell : Cell) (pre post : List Char),
      cell.text.data = pre ++ '@' :: post → ¬ '@' ∈ pre →
      extractVenue cell =
        pyStrip (removeLocParen (pyStrip post.asString).data).asString) ∧
    extractVenue { text := "Title @ Club X (San Francisco)", links := [] } =
      "Club X" := by
  refine ⟨?_, ?_, by decide⟩
  · intro cell h
    simp [extractVenue, h]
  · intro cell pre post hsplit hpre
    have hat : '@' ∈ cell.text.data := by
      rw [hsplit]
      simp
    have hall : ∀ a ∈ pre, a ≠ '@' := fun a ha he => hpre (he ▸ ha)
    have hdrop : (cell.text.data.dropWhile (fun c => c ≠ '@')).tail = post := by
      rw [hsplit, List.dropWhile_append_of_pos (by simpa using hall),
        List.dropWhile_cons]
      simp
    simp only [extractVenue, hat, if_true]
    rw [hdrop]

/-- Witness for C8 at a no-"@" cell and at a decomposed "@" cell. -/
theorem claim_C8_witness :
    extractVenue { text := "Title only", links := [] } = "TBA" ∧
    extractVenue { text := "A @ B (C)", links := [] } =
      pyStrip (removeLocParen (pyStrip (" B (C)".data).asString).data).asString :=
  ⟨claim_C8.1 { text := "Title only", links := [] } (by decide),
   claim_C8.2.1 { text := "A @ B (C)", links := [] } "A ".data " B (C)".data
     (by decide) (by decide)⟩

/-- C9: the additional-links mapping of an absent cell is empty; for a
present cell, looking up a label finds exactly the LAST hyperlink with
that non-empty visible text and a resolvable href, valued at its
resolved absolute URL (last-write-wins); concretely two "Tickets" links
keep only the later URL. -/
theorem claim_C9 :
    extractAdditionalLinks none = [] ∧
    (∀ (c : Cell) (t : String),
      List.lookup t (extractAdditionalLinks (some c)) =
        (c.links.reverse.find? (linkKeyed t)).map (fun l => resolveUrl l.href)) ∧
    extractAdditionalLinks
      (some { text := ""
              links := [{ text := "Tickets", href := "/a" },
                        { text := "Tickets", href := "http://b" }] }) =
      [("Tickets", "http://b")] := by
  refine ⟨rfl, ?_, by decide⟩
  intro c t
  rw [show extractAdditionalLinks (some c) = c.links.foldl addLinkStep [] from
    rfl]
  rw [lookup_foldl_addLinkStep,
    show List.lookup t ([] : List (String × String)) = none from rfl,
    Option.or_none]

end NineteenHz
